import Mathlib

/-!
Shallow embedding of the Qobuz AppID/Secret extraction tool (src/main.py) and
proofs about its specification claims.

Conventions of the embedding:
* Python strings are Lean `String`s (lists of Unicode code points).
* The Unicode character classes `\w` and `\d` of Python's `re` module are
  modelled by their ASCII restrictions (the bundle text the tool scrapes is
  ASCII JavaScript); `str.lower`/`str.capitalize` are likewise modelled on
  ASCII, matching Python on the ASCII inputs the pipeline produces.
* Machine-level byte strings are `List Nat` with every element `< 256`.
* A Python function that may raise an exception that escapes to its caller is
  modelled with the `PyRes` result type below.
* Network I/O is modelled by oracles: `fetch : String → String` maps a URL to
  the fetched body, and `status : String → Nat` maps a candidate secret to the
  HTTP status code the validation endpoint answers with for that candidate.
-/

set_option maxRecDepth 20000

/-- Result of a Python call: a normal return, or an exception escaping to the
caller. -/
inductive PyRes (α : Type) where
  | ok (a : α) : PyRes α
  | raise : PyRes α
deriving Repr, DecidableEq

/-- ASCII lower-case letter, the character class `[a-z]`. -/
def isLowerAlpha (c : Char) : Bool := 'a' ≤ c && c ≤ 'z'

/-- Model of the `\w` character class (ASCII restriction): letters, digits and
underscore. -/
def pyWord (c : Char) : Bool := c.isAlphanum || c = '_'

/-- The character class `[\w=]` used for seed/info/extras tokens. -/
def seedChar (c : Char) : Bool := pyWord c || c = '='

/-- Strip the literal `pat` from the front of `l`; `none` if `l` does not
start with it. -/
def dropLit : List Char → List Char → Option (List Char)
  | [], l => some l
  | _ :: _, [] => none
  | p :: ps, c :: cs => if c = p then dropLit ps cs else none

/-- Longest run of characters satisfying `p` at the front of the list,
together with the remainder. -/
def takeRun (p : Char → Bool) : List Char → List Char × List Char
  | [] => ([], [])
  | c :: cs =>
    if p c then
      let r := takeRun p cs
      (c :: r.1, r.2)
    else ([], c :: cs)

/-- Exactly `n` characters satisfying `p` from the front of the list, or
`none`. -/
def takeExact : Nat → (Char → Bool) → List Char → Option (List Char × List Char)
  | 0, _, l => some ([], l)
  | _ + 1, _, [] => none
  | n + 1, p, c :: cs =>
    if p c then (takeExact n p cs).map (fun x => (c :: x.1, x.2)) else none

/-! ### Python `base64.b64decode` (non-validating mode)

Model of CPython's `binascii.a2b_base64` with `strict_mode=False`, which is
what `base64.b64decode(s)` calls: characters outside the base64 alphabet are
skipped, a valid pad sequence terminates decoding, and a leftover partial
quad at the end raises `binascii.Error` (modelled as `none`). -/

/-- Value of a base64 alphabet character, `none` for characters outside the
alphabet. -/
def b64Val (c : Char) : Option Nat :=
  if 'A' ≤ c ∧ c ≤ 'Z' then some (c.toNat - 65)
  else if 'a' ≤ c ∧ c ≤ 'z' then some (c.toNat - 71)
  else if '0' ≤ c ∧ c ≤ '9' then some (c.toNat - 48 + 52)
  else if c = '+' then some 62
  else if c = '/' then some 63
  else none

/-- State machine of `a2b_base64` (non-strict): position in the current quad,
accumulated bits, count of pending pad characters, reversed output bytes. -/
def a2bAux : List Char → Nat → Nat → Nat → List Nat → Option (List Nat)
  | [], quadPos, _, _, out => if quadPos = 0 then some out.reverse else none
  | c :: rest, quadPos, left, pads, out =>
    if c = '=' then
      if 2 ≤ quadPos then
        if 4 ≤ quadPos + (pads + 1) then some out.reverse
        else a2bAux rest quadPos left (pads + 1) out
      else a2bAux rest quadPos left pads out
    else
      match b64Val c with
      | none => a2bAux rest quadPos left pads out
      | some v =>
        match quadPos with
        | 0 => a2bAux rest 1 v 0 out
        | 1 => a2bAux rest 2 (v % 16) 0 ((left * 4 + v / 16) :: out)
        | 2 => a2bAux rest 3 (v % 4) 0 ((left * 16 + v / 4) :: out)
        | _ => a2bAux rest 0 0 0 ((left * 64 + v) :: out)

/-- `base64.b64decode` on an ASCII character list: `some bytes` on success,
`none` for a `binascii.Error`. -/
def b64decode (l : List Char) : Option (List Nat) := a2bAux l 0 0 0 []

/-! ### Python `bytes.decode("utf-8")` (strict) -/

/-- UTF-8 continuation byte. -/
def isCont (b : Nat) : Bool := decide (128 ≤ b) && decide (b < 192)

/-- Strict UTF-8 decoder: rejects stray continuation bytes, overlong forms,
surrogate code points, code points above U+10FFFF and truncated sequences,
exactly as CPython's strict `utf-8` codec does. -/
def utf8DecAux : List Nat → List Char → Option (List Char)
  | [], acc => some acc.reverse
  | b :: rest, acc =>
    if b < 128 then utf8DecAux rest (Char.ofNat b :: acc)
    else if b < 194 then none
    else if b < 224 then
      match rest with
      | b1 :: r =>
        if isCont b1 then utf8DecAux r (Char.ofNat ((b - 192) * 64 + (b1 - 128)) :: acc)
        else none
      | [] => none
    else if b < 240 then
      match rest with
      | b1 :: b2 :: r =>
        if isCont b1 && isCont b2 then
          let cp := (b - 224) * 4096 + (b1 - 128) * 64 + (b2 - 128)
          if cp < 2048 then none
          else if 55296 ≤ cp ∧ cp ≤ 57343 then none
          else utf8DecAux r (Char.ofNat cp :: acc)
        else none
      | _ => none
    else if b < 245 then
      match rest with
      | b1 :: b2 :: b3 :: r =>
        if isCont b1 && isCont b2 && isCont b3 then
          let cp := (b - 240) * 262144 + (b1 - 128) * 4096 + (b2 - 128) * 64 + (b3 - 128)
          if cp < 65536 then none
          else if 1114111 < cp then none
          else utf8DecAux r (Char.ofNat cp :: acc)
        else none
      | _ => none
    else none

/-- `bytes.decode("utf-8")`: `some s` on success, `none` for a
`UnicodeDecodeError`. -/
def utf8Decode (l : List Nat) : Option String :=
  (utf8DecAux l []).map String.mk

/-- UTF-8 encoding of one character (for `str.encode()`). -/
def utf8EncodeChar (c : Char) : List Nat :=
  let n := c.toNat
  if n < 128 then [n]
  else if n < 2048 then [192 + n / 64, 128 + n % 64]
  else if n < 65536 then [224 + n / 4096, 128 + n / 64 % 64, 128 + n % 64]
  else [240 + n / 262144, 128 + n / 4096 % 64, 128 + n / 64 % 64, 128 + n % 64]

/-- `str.encode()`: UTF-8 bytes of a string. -/
def utf8Encode (s : String) : List Nat :=
  (s.data.map utf8EncodeChar).flatten

/-! ### decode_secret (src/main.py lines 20–26) -/

/-- Python slice `s[:-n]`: drop the last `n` characters (empty result when the
string has at most `n` characters). -/
def pyDropRight (s : String) (n : Nat) : String :=
  String.mk (s.data.take (s.data.length - n))

/-- All characters are ASCII; `str.encode("ascii")` inside
`base64.b64decode` succeeds exactly on such strings, and raises
`ValueError` (which `decode_secret` does not catch) otherwise. -/
def asciiOnly (l : List Char) : Bool := l.all (fun c => c.toNat < 128)

/-- The `try` block of `decode_secret` on the truncated string: base64-decode
and then UTF-8-decode; `binascii.Error` and `UnicodeDecodeError` are caught
and yield `ok none`. -/
def decodeCombined (combined : String) : PyRes (Option String) :=
  match b64decode combined.data with
  | none => .ok none
  | some bytes =>
    match utf8Decode bytes with
    | none => .ok none
    | some s => .ok (some s)

/-- Model of `decode_secret`: join the fragments, drop the trailing 44
characters, base64-decode the remainder and decode the bytes as UTF-8.
A non-ASCII remainder makes `base64.b64decode` raise an uncaught
`ValueError`, modelled by `raise`. -/
def decode_secret (secret_array : List String) : PyRes (Option String) :=
  let combined := pyDropRight (String.join secret_array) 44
  if asciiOnly combined.data then decodeCombined combined else .raise

/-! ### hashlib.md5 -/

/-- 32-bit left rotation on `Nat` values below `2^32`. -/
def rotl32 (x n : Nat) : Nat :=
  (x * 2 ^ n) % 4294967296 + x / 2 ^ (32 - n)

/-- The 64 MD5 sine-derived constants. -/
def md5K : List Nat :=
  [0xd76aa478, 0xe8c7b756, 0x242070db, 0xc1bdceee,
   0xf57c0faf, 0x4787c62a, 0xa8304613, 0xfd469501,
   0x698098d8, 0x8b44f7af, 0xffff5bb1, 0x895cd7be,
   0x6b901122, 0xfd987193, 0xa679438e, 0x49b40821,
   0xf61e2562, 0xc040b340, 0x265e5a51, 0xe9b6c7aa,
   0xd62f105d, 0x02441453, 0xd8a1e681, 0xe7d3fbc8,
   0x21e1cde6, 0xc33707d6, 0xf4d50d87, 0x455a14ed,
   0xa9e3e905, 0xfcefa3f8, 0x676f02d9, 0x8d2a4c8a,
   0xfffa3942, 0x8771f681, 0x6d9d6122, 0xfde5380c,
   0xa4beea44, 0x4bdecfa9, 0xf6bb4b60, 0xbebfbc70,
   0x289b7ec6, 0xeaa127fa, 0xd4ef3085, 0x04881d05,
   0xd9d4d039, 0xe6db99e5, 0x1fa27cf8, 0xc4ac5665,
   0xf4292244, 0x432aff97, 0xab9423a7, 0xfc93a039,
   0x655b59c3, 0x8f0ccc92, 0xffeff47d, 0x85845dd1,
   0x6fa87e4f, 0xfe2ce6e0, 0xa3014314, 0x4e0811a1,
   0xf7537e82, 0xbd3af235, 0x2ad7d2bb, 0xeb86d391]

/-- The 64 MD5 per-round shift amounts. -/
def md5S : List Nat :=
  [7, 12, 17, 22, 7, 12, 17, 22, 7, 12, 17, 22, 7, 12, 17, 22,
   5, 9, 14, 20, 5, 9, 14, 20, 5, 9, 14, 20, 5, 9, 14, 20,
   4, 11, 16, 23, 4, 11, 16, 23, 4, 11, 16, 23, 4, 11, 16, 23,
   6, 10, 15, 21, 6, 10, 15, 21, 6, 10, 15, 21, 6, 10, 15, 21]

/-- MD5 round function for round `i` (bitwise complement of a 32-bit value
`x` is `4294967295 - x`). -/
def md5F (i b c d : Nat) : Nat :=
  if i < 16 then Nat.lor (Nat.land b c) (Nat.land (4294967295 - b) d)
  else if i < 32 then Nat.lor (Nat.land d b) (Nat.land (4294967295 - d) c)
  else if i < 48 then Nat.xor (Nat.xor b c) d
  else Nat.xor c (Nat.lor b (4294967295 - d))

/-- Message-word index used in round `i`. -/
def md5G (i : Nat) : Nat :=
  if i < 16 then i
  else if i < 32 then (5 * i + 1) % 16
  else if i < 48 then (3 * i + 5) % 16
  else (7 * i) % 16

/-- Little-endian 32-bit word number `j` of a byte chunk. -/
def le32At (chunk : List Nat) (j : Nat) : Nat :=
  chunk.getD (4 * j) 0 + 256 * chunk.getD (4 * j + 1) 0 +
    65536 * chunk.getD (4 * j + 2) 0 + 16777216 * chunk.getD (4 * j + 3) 0

/-- One MD5 round: state `(a, b, c, d)` and round index `i`. -/
def md5Round (chunk : List Nat) (st : Nat × Nat × Nat × Nat) (i : Nat) :
    Nat × Nat × Nat × Nat :=
  match st with
  | (a, b, c, d) =>
    let tmp := (a + md5F i b c d + md5K.getD i 0 + le32At chunk (md5G i)) % 4294967296
    ((d, (b + rotl32 tmp (md5S.getD i 0)) % 4294967296, b, c) : Nat × Nat × Nat × Nat)

/-- Process one 64-byte chunk. -/
def md5Chunk (st : Nat × Nat × Nat × Nat) (chunk : List Nat) : Nat × Nat × Nat × Nat :=
  match st, (List.range 64).foldl (md5Round chunk) st with
  | (a, b, c, d), (a1, b1, c1, d1) =>
    ((a + a1) % 4294967296, (b + b1) % 4294967296,
     (c + c1) % 4294967296, (d + d1) % 4294967296)

/-- Little-endian 64-bit byte rendering of a bit length. -/
def le64 (n : Nat) : List Nat :=
  [n % 256, n / 256 % 256, n / 65536 % 256, n / 16777216 % 256,
   n / 4294967296 % 256, n / 1099511627776 % 256,
   n / 281474976710656 % 256, n / 72057594037927936 % 256]

/-- MD5 padding: a `0x80` byte, zeros up to 56 mod 64, then the bit length. -/
def md5Pad (msg : List Nat) : List Nat :=
  let l1 := msg.length + 1
  msg ++ 128 :: List.replicate ((56 + 64 - l1 % 64) % 64) 0 ++ le64 (8 * msg.length)

/-- Split a byte list into 64-byte chunks. -/
def chunks64Aux : Nat → List Nat → List (List Nat)
  | 0, _ => []
  | _ + 1, [] => []
  | n + 1, l => l.take 64 :: chunks64Aux n (l.drop 64)

/-- 64-byte chunks of a byte list. -/
def chunks64 (l : List Nat) : List (List Nat) := chunks64Aux l.length l

/-- Lower-case hex digit. -/
def hexDigit (n : Nat) : Char :=
  if n < 10 then Char.ofNat (48 + n) else Char.ofNat (87 + n)

/-- Little-endian bytes of a 32-bit word. -/
def le32Bytes (n : Nat) : List Nat :=
  [n % 256, n / 256 % 256, n / 65536 % 256, n / 16777216 % 256]

/-- `hashlib.md5(bytes).hexdigest()`: lowercase-hex MD5 digest of a byte
list. -/
def md5_hexdigest (msg : List Nat) : String :=
  match (chunks64 (md5Pad msg)).foldl md5Chunk
      (1732584193, 4023233417, 2562383102, 271733878) with
  | (a, b, c, d) =>
    String.mk (((le32Bytes a ++ le32Bytes b ++ le32Bytes c ++ le32Bytes d).map
      (fun v => [hexDigit (v / 16), hexDigit (v % 16)])).flatten)

/-! ### validate_secret (src/main.py lines 28–47) -/

/-- The signed request `validate_secret` sends: query parameters and the
`X-App-Id` header. -/
structure SignedRequest where
  format_id : Nat
  intent : String
  track_id : Nat
  request_ts : String
  request_sig : String
  x_app_id : String
deriving Repr, DecidableEq

/-- Request construction of `validate_secret` (lines 32–44): the timestamp is
captured once (its Python `str` rendering is the `timestamp` argument here),
the signing string is the f-string of line 33, and the same timestamp value is
sent as `request_ts`. -/
def mkSignedRequest (app_id secret : String) (track_id format_id : Nat)
    (timestamp : String) : SignedRequest :=
  let r_sig := "trackgetFileUrlformat_id" ++ toString format_id ++
    "intentstreamtrack_id" ++ toString track_id ++ timestamp ++ secret
  ⟨format_id, "stream", track_id, timestamp, md5_hexdigest (utf8Encode r_sig), app_id⟩

/-- The boolean `validate_secret` returns, as a function of the HTTP response
status of the API call (line 47: `response.status != 400`). No status makes
it raise. -/
def validate_secret (respStatus : Nat) : Bool := respStatus != 400

/-! ### Pattern matching over the login page and the bundle

The regular expressions of src/main.py are deterministic once analysed: every
repetition (`\d+`, `[\w=]+`, `[a-z]+`) is followed by a character outside its
class, so greedy matching is the maximal run and no backtracking into runs can
occur; the only alternation (the region names of the info/extras pattern) is
resolved by trying the alternatives in order with the rest of the pattern as
continuation, exactly as Python's engine does.  `re.search` returns the match
at the leftmost possible start position; `finditer` returns successive
non-overlapping matches, resuming after the end of each match. -/

/-- Match of `<script src="(/resources/\d+\.\d+\.\d+-[a-z]\d\x7b3\x7d/bundle\.js)"></script>`
anchored at the head of `l`, returning capture group 1 (src/main.py line 64). -/
def matchBundleAt (l : List Char) : Option String :=
  (dropLit "<script src=\"".data l).bind fun r0 =>
  (dropLit "/resources/".data r0).bind fun r1 =>
  let d1 := takeRun Char.isDigit r1
  if d1.1.isEmpty then none else
  (dropLit ['.'] d1.2).bind fun r2 =>
  let d2 := takeRun Char.isDigit r2
  if d2.1.isEmpty then none else
  (dropLit ['.'] d2.2).bind fun r3 =>
  let d3 := takeRun Char.isDigit r3
  if d3.1.isEmpty then none else
  match d3.2 with
  | '-' :: c :: r4 =>
    if isLowerAlpha c then
      (takeExact 3 Char.isDigit r4).bind fun ds =>
      (dropLit "/bundle.js".data ds.2).bind fun r5 =>
      (dropLit "\"></script>".data r5).map fun _ =>
        String.mk ("/resources/".data ++ d1.1 ++ '.' :: d2.1 ++ '.' :: d3.1 ++
          '-' :: c :: ds.1 ++ "/bundle.js".data)
    else none
  | _ => none

/-- `re.search` scan for the bundle-URL pattern: leftmost match wins. -/
def bundleSearchAux : Nat → List Char → Option String
  | 0, _ => none
  | fuel + 1, l =>
    match matchBundleAt l with
    | some s => some s
    | none =>
      match l with
      | [] => none
      | _ :: t => bundleSearchAux fuel t

/-- `re.search(r'<script src="(/resources/...bundle\.js)"></script>', page)`,
returning group 1 (src/main.py line 64). -/
def bundle_url_search (page : String) : Option String :=
  bundleSearchAux (page.length + 1) page.data

/-- Match of `production:\x7bapi:\x7bappId:"(?P<app_id>\d\x7b9\x7d)",appSecret:"(\w\x7b32\x7d)`
anchored at the head of `l`, returning the `app_id` group (line 55). -/
def matchAppIdAt (l : List Char) : Option String :=
  (dropLit "production:\x7bapi:\x7bappId:\"".data l).bind fun r0 =>
  (takeExact 9 Char.isDigit r0).bind fun ds =>
  (dropLit "\",appSecret:\"".data ds.2).bind fun r1 =>
  (takeExact 32 pyWord r1).map fun _ => String.mk ds.1

/-- `re.search` scan for the app-id pattern. -/
def appIdSearchAux : Nat → List Char → Option String
  | 0, _ => none
  | fuel + 1, l =>
    match matchAppIdAt l with
    | some s => some s
    | none =>
      match l with
      | [] => none
      | _ :: t => appIdSearchAux fuel t

/-- `app_id_regex.search(bundle)` returning the `app_id` group (line 73). -/
def app_id_search (bundle : String) : Option String :=
  appIdSearchAux (bundle.length + 1) bundle.data

/-- Match of `[a-z]\.initialSeed\("(?P<seed>[\w=]+)",window\.utimezone\.(?P<timezone>[a-z]+)\)`
anchored at the head of `l`, returning the `seed` and `timezone` groups and
the remainder after the match (line 54). -/
def matchSeedAt : List Char → Option (String × String × List Char)
  | [] => none
  | c :: r0 =>
    if isLowerAlpha c then
      (dropLit ".initialSeed(\"".data r0).bind fun r1 =>
      let sd := takeRun seedChar r1
      if sd.1.isEmpty then none else
      (dropLit "\",window.utimezone.".data sd.2).bind fun r2 =>
      let tz := takeRun isLowerAlpha r2
      if tz.1.isEmpty then none else
      match tz.2 with
      | ')' :: r3 => some (String.mk sd.1, String.mk tz.1, r3)
      | _ => none
    else none

/-- `finditer` scan for the seed pattern: successive non-overlapping leftmost
matches. -/
def seedMatchesAux : Nat → List Char → List (String × String)
  | 0, _ => []
  | fuel + 1, l =>
    match matchSeedAt l with
    | some (sd, tz, rest) => (sd, tz) :: seedMatchesAux fuel rest
    | none =>
      match l with
      | [] => []
      | _ :: t => seedMatchesAux fuel t

/-- All `(seed, timezone)` matches of `seed_timezone_regex.finditer(bundle)`
in order (line 80). -/
def seedMatches (bundle : String) : List (String × String) :=
  seedMatchesAux (bundle.length + 1) bundle.data

/-- One alternative of the region alternation together with the rest of the
info/extras pattern: the region name literal, then `",info:"`, a `[\w=]+`
run, `",extras:"`, a `[\w=]+` run and a closing quote.  Returns the matched
region name, the `info` and `extras` groups, and the remainder. -/
def altCont (k : String) (r : List Char) : Option (String × String × String × List Char) :=
  (dropLit k.data r).bind fun r0 =>
  (dropLit "\",info:\"".data r0).bind fun r1 =>
  let info := takeRun seedChar r1
  if info.1.isEmpty then none else
  (dropLit "\",extras:\"".data info.2).bind fun r2 =>
  let ext := takeRun seedChar r2
  if ext.1.isEmpty then none else
  match ext.2 with
  | '\"' :: r3 => some (k, String.mk info.1, String.mk ext.1, r3)
  | _ => none

/-- Ordered alternation with backtracking: try each region alternative with
the full continuation, first success wins (Python alternation semantics). -/
def tryAlts : List String → List Char → Option (String × String × String × List Char)
  | [], _ => none
  | k :: ks, r =>
    match altCont k r with
    | some x => some x
    | none => tryAlts ks r

/-- Match of `name:"\w+/(?P<timezone>ALT)",info:"(?P<info>[\w=]+)",extras:"(?P<extras>[\w=]+)"`
anchored at the head of `l`, where `ALT` is the alternation of the region
names in `alts` (line 85). -/
def matchInfoExtrasAt (alts : List String) (l : List Char) :
    Option (String × String × String × List Char) :=
  (dropLit "name:\"".data l).bind fun r0 =>
  let w := takeRun pyWord r0
  if w.1.isEmpty then none else
  match w.2 with
  | '/' :: r1 => tryAlts alts r1
  | _ => none

/-- `finditer` scan for the info/extras pattern. -/
def infoExtrasMatchesAux (alts : List String) : Nat → List Char → List (String × String × String)
  | 0, _ => []
  | fuel + 1, l =>
    match matchInfoExtrasAt alts l with
    | some (tz, info, ext, rest) => (tz, info, ext) :: infoExtrasMatchesAux alts fuel rest
    | none =>
      match l with
      | [] => []
      | _ :: t => infoExtrasMatchesAux alts fuel t

/-- All `(timezone, info, extras)` matches of
`info_extras_regex.finditer(bundle)` in order (line 90). -/
def infoExtrasMatches (bundle : String) (alts : List String) : List (String × String × String) :=
  infoExtrasMatchesAux alts (bundle.length + 1) bundle.data

/-! ### The ordered region map (Python dict with insertion order) -/

/-- `d[k] = v` on an insertion-ordered dict: replace in place if the key
exists, append at the end otherwise. -/
def setVal (k : String) (v : List String) : List (String × List String) → List (String × List String)
  | [] => [(k, v)]
  | (k1, v1) :: rest => if k1 = k then (k, v) :: rest else (k1, v1) :: setVal k v rest

/-- `d[k].extend(vs)`: append to the value at the first entry for `k`. -/
def appendAt (k : String) (vs : List String) : List (String × List String) → List (String × List String)
  | [] => []
  | (k1, v1) :: rest =>
    if k1 = k then (k1, v1 ++ vs) :: rest else (k1, v1) :: appendAt k vs rest

/-- `d[k]` lookup. -/
def lookupA (k : String) : List (String × List String) → Option (List String)
  | [] => none
  | (k1, v1) :: rest => if k1 = k then some v1 else lookupA k rest

/-- `k in d`. -/
def containsKey (k : String) (m : List (String × List String)) : Bool :=
  m.any (fun p => p.1 = k)

/-- The keys of the map, in insertion order. -/
def keysOf (m : List (String × List String)) : List String := m.map Prod.fst

/-- Python `str.lower()` (ASCII model). -/
def pyLower (s : String) : String := String.mk (s.data.map Char.toLower)

/-- Python `str.capitalize()` (ASCII model): first character upper-case, the
rest lower-case. -/
def pyCapitalize (s : String) : String :=
  match s.data with
  | [] => ""
  | c :: t => String.mk (c.toUpper :: t.map Char.toLower)

/-! ### get_app_id_and_secrets (src/main.py lines 49–110) -/

/-- Seed extraction (lines 79–81): fold the seed matches into an
insertion-ordered dict, each region mapped to the singleton list of its seed
(a later match for the same region overwrites the earlier one). -/
def extract_seeds (bundle : String) : List (String × List String) :=
  (seedMatches bundle).foldl (fun acc p => setVal p.2 [p.1] acc) []

/-- The alternation embedded into the info/extras pattern (line 84):
capitalized region keys in insertion order; an empty key set yields an empty
pattern, which matches the empty string. -/
def altsOf (m : List (String × List String)) : List String :=
  let ks := m.map (fun p => pyCapitalize p.1)
  if ks.isEmpty then [""] else ks

/-- The body of the loop at lines 90–93: for a match whose lower-cased region
is a key of the map, extend that region's fragment list with the `info` and
`extras` groups, in that order; other matches leave the map unchanged. -/
def ieStep (acc : List (String × List String)) (t : String × String × String) :
    List (String × List String) :=
  let tz := pyLower t.1
  if containsKey tz acc then appendAt tz [t.2.1, t.2.2] acc else acc

/-- Info/extras collection (lines 84–93): fold `ieStep` over the matches of
the dynamically built pattern. -/
def extract_info_extras (bundle : String) (secrets : List (String × List String)) :
    List (String × List String) :=
  (infoExtrasMatches bundle (altsOf secrets)).foldl ieStep secrets

/-- One step of the list comprehension of line 96: combine one region's
`decode_secret` outcome with the candidates from the remaining regions.  The
candidate is kept only when it is truthy (neither `None` nor the empty
string); an exception escaping from `decode_secret` aborts the whole
comprehension. -/
def dsStep (r : PyRes (Option String)) (acc : Except Unit (List String)) :
    Except Unit (List String) :=
  match r with
  | .raise => .error ()
  | .ok res =>
    match acc with
    | .error e => .error e
    | .ok cs =>
      .ok (match res with
        | some s => if s = "" then cs else s :: cs
        | none => cs)

/-- The list comprehension of line 96 over all regions' fragment lists, in
insertion order. -/
def decoded_secrets : List (List String) → Except Unit (List String)
  | [] => .ok []
  | arr :: rest => dsStep (decode_secret arr) (decoded_secrets rest)

/-- The validation loop of lines 99–104: try candidates in order, stop at the
first accepted one.  Returns the accepted candidate (if any) and the list of
candidates passed to the validator, in order. -/
def first_valid (status : String → Nat) : List String → Option String × List String
  | [] => (none, [])
  | s :: rest =>
    if validate_secret (status s) then (some s, [s])
    else
      let r := first_valid status rest
      (r.1, s :: r.2)

/-- The exceptions `get_app_id_and_secrets` can raise internally (all caught
at line 108 and turned into a `None` return). -/
inductive RunError where
  | noBundleUrl
  | noAppId
  | decodeException
  | noValidSecret
deriving Repr, DecidableEq

/-- Observable I/O of one run: the URLs fetched and the candidate secrets
passed to the validator, each in order. -/
structure RunTrace where
  fetches : List String
  validated : List String
deriving Repr, DecidableEq

/-- The fixed login page URL (line 56). -/
def login_url : String := "https://play.qobuz.com/login"

/-- Validation stage (lines 99–106). -/
def validate_stage (status : String → Nat) (app_id : String) (fetches : List String)
    (cs : List String) : Except RunError (String × String) × RunTrace :=
  match first_valid status cs with
  | (some sec, tried) => (.ok (app_id, sec), ⟨fetches, tried⟩)
  | (none, tried) => (.error .noValidSecret, ⟨fetches, tried⟩)

/-- Decoding stage (line 96) followed by validation. -/
def decode_stage (status : String → Nat) (app_id : String) (fetches : List String)
    (lists : List (List String)) : Except RunError (String × String) × RunTrace :=
  match decoded_secrets lists with
  | .error _ => (.error .decodeException, ⟨fetches, []⟩)
  | .ok cs => validate_stage status app_id fetches cs

/-- Everything after the bundle has been fetched (lines 72–106). -/
def bundle_stage (status : String → Nat) (bundle : String) (fetches : List String) :
    Except RunError (String × String) × RunTrace :=
  match app_id_search bundle with
  | none => (.error .noAppId, ⟨fetches, []⟩)
  | some app_id =>
    decode_stage status app_id fetches
      ((extract_info_extras bundle (extract_seeds bundle)).map Prod.snd)

/-- The whole pipeline of `get_app_id_and_secrets` (lines 58–106), before the
top-level exception handler: fetch the login page, locate and fetch the
bundle, extract the app id and the region fragments, decode and validate.
Produces the result (or the exception raised) together with the I/O trace. -/
def get_app_id_and_secrets_core (fetch : String → String) (status : String → Nat) :
    Except RunError (String × String) × RunTrace :=
  match bundle_url_search (fetch login_url) with
  | none => (.error .noBundleUrl, ⟨[login_url], []⟩)
  | some path =>
    let burl := "https://play.qobuz.com" ++ path
    bundle_stage status (fetch burl) [login_url, burl]

/-- `get_app_id_and_secrets` as its caller sees it (lines 108–110 catch every
exception and return `None`): the credential, if any, plus the trace. -/
def get_app_id_and_secrets (fetch : String → String) (status : String → Nat) :
    Option (String × String) × RunTrace :=
  match get_app_id_and_secrets_core fetch status with
  | (.ok c, t) => (some c, t)
  | (.error _, t) => (none, t)

/-- The per-region fragment lists the run decodes, in discovery order
(statement helper: the composition of the extraction stages on the fetched
bundle). -/
def region_fragment_lists (fetch : String → String) : List (List String) :=
  match bundle_url_search (fetch login_url) with
  | none => []
  | some path =>
    let bundle := fetch ("https://play.qobuz.com" ++ path)
    (extract_info_extras bundle (extract_seeds bundle)).map Prod.snd

/-- The `info` and `extras` groups of a list of matches, flattened in match
order. -/
def pairsFlat : List (String × String × String) → List String
  | [] => []
  | t :: ts => t.2.1 :: t.2.2 :: pairsFlat ts

/-! ### Concrete test environments (used by the witness theorems) -/

/-- A seed token: base64 of `"abcdefgh"` followed by 44 filler characters. -/
def sdParis : String := "YWJjZGVmZ2g=AAAAAAAAAAAAAAAAAAAAAAAAAAAAAAAAAAAAAAAAAAAA"

/-- A seed token: base64 of `"ijklmnop"` followed by 44 filler characters. -/
def sdBerlin : String := "aWprbG1ub3A=BBBBBBBBBBBBBBBBBBBBBBBBBBBBBBBBBBBBBBBBBBBB"

/-- A login page containing a well-formed bundle script tag. -/
def loginPageA : String :=
  "<html><script src=\"/resources/1.2.3-a123/bundle.js\"></script></html>"

/-- A bundle with an app id and two regions, `paris` discovered first. -/
def bundleA : String :=
  "production:\x7bapi:\x7bappId:\"123456789\",appSecret:\"abcdefabcdefabcdefabcdefabcdef12\"" ++
  "x.initialSeed(\"" ++ sdParis ++ "\",window.utimezone.paris)" ++
  "y.initialSeed(\"" ++ sdBerlin ++ "\",window.utimezone.berlin)"

/-- Fetch oracle serving `loginPageA` and `bundleA`. -/
def fetchA : String → String :=
  fun url => if url = login_url then loginPageA else bundleA

/-- Status oracle rejecting the first candidate (HTTP 400) and accepting the
second (HTTP 200). -/
def statusA : String → Nat :=
  fun s => if s = "abcdefgh" then 400 else 200

/-- Status oracle rejecting every candidate. -/
def statusR : String → Nat := fun _ => 400

/-- A login page with no bundle script tag. -/
def loginPageB : String := "<html><body>no bundle here</body></html>"

/-- A bundle with two seed matches for the same region. -/
def bundleDup : String :=
  "x.initialSeed(\"AAAA\",window.utimezone.paris)y.initialSeed(\"BBBB\",window.utimezone.paris)"

/-- A bundle with one seed region and a matching info/extras object. -/
def bundleC : String :=
  "x.initialSeed(\"SEED\",window.utimezone.paris)name:\"a/Paris\",info:\"III\",extras:\"EEE\""

/-- The seed map of `bundleC`. -/
def mC : List (String × List String) := extract_seeds bundleC

/-! ### Helper lemmas -/

theorem str_merge3 (a b c d X : String) (h : a ++ b ++ c = d) :
    a ++ (b ++ (c ++ X)) = d ++ X := by
  rw [← String.append_assoc, ← String.append_assoc, h]

theorem lookupA_setVal_self (k : String) (v : List String) :
    ∀ m : List (String × List String), lookupA k (setVal k v m) = some v := by
  intro m
  induction m with
  | nil => simp [setVal, lookupA]
  | cons p rest ih =>
    rcases p with ⟨k1, v1⟩
    by_cases h : k1 = k
    · simp [setVal, h, lookupA]
    · simp [setVal, h, lookupA, ih]

theorem lookupA_setVal_ne (k k2 : String) (v : List String) (h : k2 ≠ k) :
    ∀ m : List (String × List String), lookupA k (setVal k2 v m) = lookupA k m := by
  intro m
  induction m with
  | nil => simp [setVal, lookupA, h]
  | cons p rest ih =>
    rcases p with ⟨k1, v1⟩
    by_cases h1 : k1 = k2
    · subst h1
      simp [setVal, lookupA, h]
    · by_cases h2 : k1 = k
      · subst h2
        simp [setVal, lookupA, h1, Ne.symm h]
      · simp [setVal, lookupA, h1, h2, ih]

theorem lookupA_appendAt_self (k : String) (vs : List String) :
    ∀ (m : List (String × List String)) (v : List String), lookupA k m = some v →
      lookupA k (appendAt k vs m) = some (v ++ vs) := by
  intro m
  induction m with
  | nil => intro v hv; simp [lookupA] at hv
  | cons p rest ih =>
    rcases p with ⟨k1, v1⟩
    intro v hv
    by_cases h : k1 = k
    · simp [lookupA, h] at hv
      simp [appendAt, lookupA, h, hv]
    · simp [lookupA, h] at hv
      simp [appendAt, lookupA, h, ih v hv]

theorem lookupA_appendAt_ne (k k2 : String) (vs : List String) (h : k ≠ k2) :
    ∀ m : List (String × List String), lookupA k (appendAt k2 vs m) = lookupA k m := by
  intro m
  induction m with
  | nil => simp [appendAt]
  | cons p rest ih =>
    rcases p with ⟨k1, v1⟩
    by_cases h1 : k1 = k2
    · subst h1
      simp [appendAt, lookupA, Ne.symm h, ih]
    · by_cases h2 : k1 = k
      · subst h2
        simp [appendAt, lookupA, h1, Ne.symm h1]
      · simp [appendAt, lookupA, h1, h2, ih]

theorem keysOf_appendAt (k : String) (vs : List String) :
    ∀ m : List (String × List String), keysOf (appendAt k vs m) = keysOf m := by
  intro m
  induction m with
  | nil => simp [appendAt]
  | cons p rest ih =>
    rcases p with ⟨k1, v1⟩
    by_cases h : k1 = k
    · simp [appendAt, keysOf, h]
    · simp only [appendAt, keysOf, h, if_neg h]
      simpa [keysOf] using ih

theorem containsKey_of_lookupA (k : String) :
    ∀ (m : List (String × List String)) (v : List String), lookupA k m = some v →
      containsKey k m = true := by
  intro m
  induction m with
  | nil => intro v hv; simp [lookupA] at hv
  | cons p rest ih =>
    rcases p with ⟨k1, v1⟩
    intro v hv
    by_cases h : k1 = k
    · simp [containsKey, h]
    · simp [lookupA, h] at hv
      simp [containsKey] at ih ⊢
      exact Or.inr (ih v hv)

theorem lookupA_foldl_setVal (k : String) :
    ∀ (ms : List (String × String)) (m : List (String × List String)),
    lookupA k (ms.foldl (fun acc p => setVal p.2 [p.1] acc) m) =
      match (ms.filter (fun q => q.2 == k)).getLast? with
      | some q => some [q.1]
      | none => lookupA k m := by
  intro ms
  induction ms with
  | nil => intro m; simp
  | cons p ms ih =>
    intro m
    rw [List.foldl_cons, ih]
    by_cases hp : p.2 = k
    · rw [List.filter_cons_of_pos (by simpa using hp)]
      cases hl : (ms.filter (fun q => q.2 == k)).getLast? with
      | some q =>
        cases hfm : ms.filter (fun q => q.2 == k) with
        | nil => rw [hfm] at hl; simp at hl
        | cons a as =>
          rw [hfm] at hl
          rw [List.getLast?_cons_cons, hl]
      | none =>
        have hfm : ms.filter (fun q => q.2 == k) = [] :=
          List.getLast?_eq_none_iff.mp hl
        rw [hfm]
        simp only [List.getLast?_singleton]
        rw [hp, lookupA_setVal_self]
    · rw [List.filter_cons_of_neg (by simpa using hp)]
      cases hl : (ms.filter (fun q => q.2 == k)).getLast? with
      | some q => simp
      | none => simp [lookupA_setVal_ne k p.2 [p.1] hp]

theorem keysOf_ieStep (m : List (String × List String)) (t : String × String × String) :
    keysOf (ieStep m t) = keysOf m := by
  unfold ieStep
  by_cases h : containsKey (pyLower t.1) m
  · simp [h, keysOf_appendAt]
  · simp [h]

theorem keysOf_foldl_ieStep :
    ∀ (ms : List (String × String × String)) (m : List (String × List String)),
    keysOf (ms.foldl ieStep m) = keysOf m := by
  intro ms
  induction ms with
  | nil => intro m; rfl
  | cons t ms ih => intro m; rw [List.foldl_cons, ih, keysOf_ieStep]

theorem ieStep_eq_appendAt (m : List (String × List String)) (t : String × String × String)
    (hc : containsKey (pyLower t.1) m = true) :
    ieStep m t = appendAt (pyLower t.1) [t.2.1, t.2.2] m := by
  simp [ieStep, hc]

theorem lookupA_ieStep_ne (k : String) (m : List (String × List String))
    (t : String × String × String) (h : pyLower t.1 ≠ k) :
    lookupA k (ieStep m t) = lookupA k m := by
  by_cases hc : containsKey (pyLower t.1) m
  · simp [ieStep, hc, lookupA_appendAt_ne k (pyLower t.1) [t.2.1, t.2.2] (Ne.symm h)]
  · simp [ieStep, hc]

theorem lookupA_foldl_ieStep (k : String) :
    ∀ (ms : List (String × String × String)) (m : List (String × List String))
      (v : List String), lookupA k m = some v →
    lookupA k (ms.foldl ieStep m) =
      some (v ++ pairsFlat (ms.filter (fun t => pyLower t.1 == k))) := by
  intro ms
  induction ms with
  | nil => intro m v hv; simp [pairsFlat, hv]
  | cons t ms ih =>
    intro m v hv
    rw [List.foldl_cons]
    by_cases hp : pyLower t.1 = k
    · have hc : containsKey (pyLower t.1) m = true := by
        rw [hp]; exact containsKey_of_lookupA k m v hv
      have hv2 : lookupA k (ieStep m t) = some (v ++ [t.2.1, t.2.2]) := by
        rw [ieStep_eq_appendAt m t hc, hp]
        exact lookupA_appendAt_self k [t.2.1, t.2.2] m v hv
      rw [ih (ieStep m t) (v ++ [t.2.1, t.2.2]) hv2,
        List.filter_cons_of_pos (by simpa using hp)]
      simp [pairsFlat]
    · have hstep : lookupA k (ieStep m t) = some v := by
        rw [lookupA_ieStep_ne k m t hp]; exact hv
      rw [ih (ieStep m t) v hstep, List.filter_cons_of_neg (by simpa using hp)]

theorem first_valid_all_reject (status : String → Nat) :
    ∀ cs : List String, (∀ s ∈ cs, validate_secret (status s) = false) →
      first_valid status cs = (none, cs) := by
  intro cs
  induction cs with
  | nil => intro _; rfl
  | cons s rest ih =>
    intro h
    have h1 : validate_secret (status s) = false := h s (by simp)
    simp only [first_valid, h1, Bool.false_eq_true, if_neg, ite_false]
    rw [ih (fun x hx => h x (List.mem_cons_of_mem _ hx))]

theorem first_valid_sub (status : String → Nat) :
    ∀ (cs : List String) (s : String), s ∈ (first_valid status cs).2 → s ∈ cs := by
  intro cs
  induction cs with
  | nil => intro s h; simp [first_valid] at h
  | cons c rest ih =>
    intro s h
    cases hv : validate_secret (status c) with
    | true =>
      simp [first_valid, hv] at h
      simp [h]
    | false =>
      simp [first_valid, hv] at h
      rcases h with h1 | h1
      · simp [h1]
      · exact List.mem_cons_of_mem _ (ih s h1)

theorem decoded_secrets_mem :
    ∀ (lists : List (List String)) (cs : List String),
      decoded_secrets lists = .ok cs → ∀ s ∈ cs,
      s ≠ "" ∧ ∃ arr, arr ∈ lists ∧ decode_secret arr = .ok (some s) := by
  intro lists
  induction lists with
  | nil =>
    intro cs h s hs
    simp only [decoded_secrets, Except.ok.injEq] at h
    subst h
    simp at hs
  | cons arr rest ih =>
    intro cs h s hs
    simp only [decoded_secrets] at h
    cases hd : decode_secret arr with
    | raise => rw [hd] at h; simp [dsStep] at h
    | ok res =>
      rw [hd] at h
      cases hr : decoded_secrets rest with
      | error e => rw [hr] at h; simp [dsStep] at h
      | ok cs1 =>
        rw [hr] at h
        simp only [dsStep, Except.ok.injEq] at h
        cases res with
        | none =>
          subst h
          rcases ih cs1 hr s hs with ⟨hne, arr1, hmem, hdec⟩
          exact ⟨hne, arr1, List.mem_cons_of_mem _ hmem, hdec⟩
        | some s1 =>
          have h : (if s1 = "" then cs1 else s1 :: cs1) = cs := h
          by_cases hse : s1 = ""
          · rw [if_pos hse] at h
            subst h
            rcases ih cs1 hr s hs with ⟨hne, arr1, hmem, hdec⟩
            exact ⟨hne, arr1, List.mem_cons_of_mem _ hmem, hdec⟩
          · rw [if_neg hse] at h
            subst h
            rcases List.mem_cons.mp hs with h1 | h1
            · subst h1
              exact ⟨hse, arr, by simp, hd⟩
            · rcases ih cs1 hr s h1 with ⟨hne, arr1, hmem, hdec⟩
              exact ⟨hne, arr1, List.mem_cons_of_mem _ hmem, hdec⟩

theorem decodeCombined_ne_raise (c : String) : decodeCombined c ≠ PyRes.raise := by
  unfold decodeCombined
  cases hb : b64decode c.data with
  | none => simp
  | some bytes =>
    cases hu : utf8Decode bytes with
    | none => simp [hu]
    | some s => simp [hu]

/-! ### The claims -/

/-- C1 counterexample: on a fragment list whose concatenation is shorter than
44 characters, `decode_secret` does not return `None` — the slice `[:-44]`
yields the empty string, which base64-decodes to the empty byte string and
UTF-8-decodes to the empty Python string. -/
theorem claim_C1_counterexample :
    decode_secret [""] = .ok (some "") ∧ decode_secret [""] ≠ .ok none := by
  exact ⟨rfl, by decide⟩

/-- C1 (amended): for every fragment list whose post-truncation remainder is
ASCII, `decode_secret` never raises to its caller; on a concatenation shorter
than 44 characters it returns the empty string (not `None`); when the
remainder is not valid base64, or its bytes are not valid UTF-8, it returns
`None`. -/
theorem claim_C1_amended (arr : List String)
    (hascii : asciiOnly (pyDropRight (String.join arr) 44).data = true) :
    decode_secret arr ≠ .raise ∧
    ((String.join arr).data.length < 44 → decode_secret arr = .ok (some "")) ∧
    (b64decode (pyDropRight (String.join arr) 44).data = none →
      decode_secret arr = .ok none) ∧
    (∀ bs, b64decode (pyDropRight (String.join arr) 44).data = some bs →
      utf8Decode bs = none → decode_secret arr = .ok none) := by
  have hds : decode_secret arr = decodeCombined (pyDropRight (String.join arr) 44) := by
    unfold decode_secret
    rw [if_pos hascii]
  refine ⟨?_, ?_, ?_, ?_⟩
  · rw [hds]; exact decodeCombined_ne_raise _
  · intro h
    have hc : pyDropRight (String.join arr) 44 = "" := by
      unfold pyDropRight
      rw [Nat.sub_eq_zero_of_le (Nat.le_of_lt h)]
      rfl
    rw [hds, hc]
    rfl
  · intro hb
    rw [hds]
    unfold decodeCombined
    simp only [hb]
  · intro bs hb hu
    rw [hds]
    unfold decodeCombined
    simp only [hb, hu]

theorem claim_C1_amended_witness :
    decode_secret [String.mk (List.replicate 45 'A')] = .ok none ∧
    decode_secret [""] = .ok (some "") := by
  constructor
  · exact (claim_C1_amended [String.mk (List.replicate 45 'A')] (by decide)).2.2.1 (by decide)
  · exact (claim_C1_amended [""] (by decide)).2.1 (by decide)

/-- C2: the validator rejects exactly on HTTP status 400 and accepts every
other status, among them 200, 401, 404 and 500; being a total function of the
status, it raises on no status. -/
theorem claim_C2 (st : Nat) :
    (validate_secret st = false ↔ st = 400) ∧
    validate_secret 200 = true ∧ validate_secret 401 = true ∧
    validate_secret 404 = true ∧ validate_secret 500 = true := by
  refine ⟨?_, by decide, by decide, by decide, by decide⟩
  unfold validate_secret
  simp

theorem mkSignedRequest_request_sig (app_id secret : String) (track_id format_id : Nat)
    (timestamp : String) :
    (mkSignedRequest app_id secret track_id format_id timestamp).request_sig =
      md5_hexdigest (utf8Encode ("trackgetFileUrlformat_id" ++ toString format_id ++
        "intentstreamtrack_id" ++ toString track_id ++ timestamp ++ secret)) := by
  unfold mkSignedRequest
  dsimp only

/-- C3: the request signature is the lowercase-hex MD5 digest of the
separator-free concatenation
`"track" + "getFileUrl" + "format_id" + format_id + "intent" + "stream" +
"track_id" + track_id + timestamp + secret`, and the timestamp hashed into
the signature is sent unchanged as the `request_ts` parameter. -/
theorem claim_C3 (app_id secret : String) (track_id format_id : Nat) (timestamp : String) :
    (mkSignedRequest app_id secret track_id format_id timestamp).request_sig =
      md5_hexdigest (utf8Encode ("track" ++ "getFileUrl" ++ "format_id" ++
        toString format_id ++ "intent" ++ "stream" ++ "track_id" ++
        toString track_id ++ timestamp ++ secret)) ∧
    (mkSignedRequest app_id secret track_id format_id timestamp).request_ts = timestamp := by
  refine ⟨?_, rfl⟩
  have h : "track" ++ "getFileUrl" ++ "format_id" ++ toString format_id ++ "intent" ++
      "stream" ++ "track_id" ++ toString track_id ++ timestamp ++ secret =
      "trackgetFileUrlformat_id" ++ toString format_id ++ "intentstreamtrack_id" ++
      toString track_id ++ timestamp ++ secret := by
    simp only [String.append_assoc]
    rw [str_merge3 "track" "getFileUrl" "format_id" "trackgetFileUrlformat_id"
      (toString format_id ++ ("intent" ++ ("stream" ++ ("track_id" ++
        (toString track_id ++ (timestamp ++ secret)))))) rfl]
    rw [str_merge3 "intent" "stream" "track_id" "intentstreamtrack_id"
      (toString track_id ++ (timestamp ++ secret)) rfl]
  rw [mkSignedRequest_request_sig, h]

/-- C5: the info/extras pass never adds a region key (the key set is
preserved); a region already present has the `info` and `extras` groups of
each of its case-insensitive matches appended in that order; matches for
other regions leave the map unchanged. -/
theorem claim_C5 (bundle : String) (m : List (String × List String))
    (k : String) (v : List String) (h : lookupA k m = some v) :
    keysOf (extract_info_extras bundle m) = keysOf m ∧
    lookupA k (extract_info_extras bundle m) =
      some (v ++ pairsFlat ((infoExtrasMatches bundle (altsOf m)).filter
        (fun t => pyLower t.1 == k))) := by
  unfold extract_info_extras
  exact ⟨keysOf_foldl_ieStep _ m, lookupA_foldl_ieStep k _ m v h⟩

theorem claim_C5_witness :
    keysOf (extract_info_extras bundleC mC) = keysOf mC ∧
    lookupA "paris" (extract_info_extras bundleC mC) =
      some (["SEED"] ++ pairsFlat ((infoExtrasMatches bundleC (altsOf mC)).filter
        (fun t => pyLower t.1 == "paris"))) :=
  claim_C5 bundleC mC "paris" ["SEED"] (by decide)

/-- C6: when a region key has several seed matches, the recorded seed is the
one of the last match — the later occurrence fully replaces the earlier. -/
theorem claim_C6 (bundle : String) (k : String) (p : String × String)
    (h : ((seedMatches bundle).filter (fun q => q.2 == k)).getLast? = some p) :
    lookupA k (extract_seeds bundle) = some [p.1] := by
  unfold extract_seeds
  rw [lookupA_foldl_setVal k (seedMatches bundle) [], h]

theorem claim_C6_witness :
    lookupA "paris" (extract_seeds bundleDup) = some ["BBBB"] :=
  claim_C6 bundleDup "paris" ("BBBB", "paris") (by decide)

/-- C9: when the login page has no bundle script tag, the run fails with the
"Could not find bundle URL" error having fetched only the login page — no
bundle fetch occurs. -/
theorem claim_C9 (fetch : String → String) (status : String → Nat)
    (h : bundle_url_search (fetch login_url) = none) :
    get_app_id_and_secrets_core fetch status =
      (.error .noBundleUrl, ⟨[login_url], []⟩) := by
  unfold get_app_id_and_secrets_core
  rw [h]

theorem claim_C9_witness :
    get_app_id_and_secrets_core (fun _ => loginPageB) statusA =
      (.error .noBundleUrl, ⟨[login_url], []⟩) :=
  claim_C9 (fun _ => loginPageB) statusA (by decide)

/-- C10: `decode_secret` depends only on the concatenation of its fragment
list — fragment lists with equal joins decode identically. -/
theorem claim_C10 (l1 l2 : List String) (h : String.join l1 = String.join l2) :
    decode_secret l1 = decode_secret l2 := by
  unfold decode_secret
  rw [h]

theorem claim_C10_witness : decode_secret ["ab", "c"] = decode_secret ["abc"] :=
  claim_C10 ["ab", "c"] ["abc"] (by decide)

theorem validate_stage_validated (status : String → Nat) (app_id : String)
    (fetches cs : List String) :
    (validate_stage status app_id fetches cs).2.validated = (first_valid status cs).2 := by
  unfold validate_stage
  cases hfv : first_valid status cs with
  | mk r tried => cases r <;> rfl

/-- C4: with the pipeline reaching validation and the decoded candidates
starting with a rejected one followed by an accepted one, the run calls the
validator exactly twice, in discovery order, and returns the second
candidate paired with the extracted app id. -/
theorem claim_C4 (fetch : String → String) (status : String → Nat)
    (path bundle app_id s1 s2 : String) (rest : List String)
    (h1 : bundle_url_search (fetch login_url) = some path)
    (h2 : fetch ("https://play.qobuz.com" ++ path) = bundle)
    (h3 : app_id_search bundle = some app_id)
    (h4 : decoded_secrets ((extract_info_extras bundle (extract_seeds bundle)).map Prod.snd)
      = .ok (s1 :: s2 :: rest))
    (h5 : validate_secret (status s1) = false)
    (h6 : validate_secret (status s2) = true) :
    get_app_id_and_secrets_core fetch status =
      (.ok (app_id, s2),
        ⟨[login_url, "https://play.qobuz.com" ++ path], [s1, s2]⟩) := by
  have hfv : first_valid status (s1 :: s2 :: rest) = (some s2, [s1, s2]) := by
    simp [first_valid, h5, h6]
  simp only [get_app_id_and_secrets_core, h1]
  rw [h2]
  simp only [bundle_stage, h3]
  simp only [decode_stage, h4]
  simp only [validate_stage, hfv]

set_option maxHeartbeats 2000000 in
theorem claim_C4_witness :
    get_app_id_and_secrets_core fetchA statusA =
      (.ok ("123456789", "ijklmnop"),
        ⟨[login_url, "https://play.qobuz.com" ++ "/resources/1.2.3-a123/bundle.js"],
          ["abcdefgh", "ijklmnop"]⟩) :=
  claim_C4 fetchA statusA "/resources/1.2.3-a123/bundle.js" bundleA "123456789"
    "abcdefgh" "ijklmnop" [] (by rfl) (by rfl) (by rfl) (by rfl) (by rfl) (by rfl)

/-- C7: a run yields at most one credential; with every candidate rejected by
the validator, the caller receives no credential at all, and a run that
reaches the validation stage fails precisely with the "No valid secret
found" error. -/
theorem claim_C7 (fetch : String → String) (status : String → Nat)
    (hall : ∀ s, status s = 400) :
    (get_app_id_and_secrets fetch status).1 = none ∧
    (∀ path app_id cs,
      bundle_url_search (fetch login_url) = some path →
      app_id_search (fetch ("https://play.qobuz.com" ++ path)) = some app_id →
      decoded_secrets ((extract_info_extras (fetch ("https://play.qobuz.com" ++ path))
        (extract_seeds (fetch ("https://play.qobuz.com" ++ path)))).map Prod.snd) = .ok cs →
      (get_app_id_and_secrets_core fetch status).1 = .error .noValidSecret) := by
  have hrej : ∀ s, validate_secret (status s) = false := by
    intro s; rw [validate_secret, hall s]; decide
  have hvs : ∀ (app_id : String) (fetches cs : List String),
      validate_stage status app_id fetches cs =
        (.error .noValidSecret, ⟨fetches, cs⟩) := by
    intro aid fetches cs
    unfold validate_stage
    rw [first_valid_all_reject status cs (fun s _ => hrej s)]
  have hcore : ∀ c, (get_app_id_and_secrets_core fetch status).1 ≠ .ok c := by
    intro c
    unfold get_app_id_and_secrets_core
    cases hb : bundle_url_search (fetch login_url) with
    | none => simp
    | some path =>
      dsimp only
      unfold bundle_stage
      cases ha : app_id_search (fetch ("https://play.qobuz.com" ++ path)) with
      | none => simp
      | some aid =>
        dsimp only
        unfold decode_stage
        cases hd : decoded_secrets
            ((extract_info_extras (fetch ("https://play.qobuz.com" ++ path))
              (extract_seeds (fetch ("https://play.qobuz.com" ++ path)))).map Prod.snd) with
        | error e => simp
        | ok cs =>
          dsimp only
          rw [hvs]
          simp
  constructor
  · unfold get_app_id_and_secrets
    cases hres : get_app_id_and_secrets_core fetch status with
    | mk r t =>
      cases r with
      | ok c =>
        exfalso
        apply hcore c
        rw [hres]
      | error e => rfl
  · intro path aid cs hb ha hd
    unfold get_app_id_and_secrets_core
    rw [hb]
    dsimp only
    unfold bundle_stage
    rw [ha]
    dsimp only
    unfold decode_stage
    rw [hd]
    dsimp only
    rw [hvs]

set_option maxHeartbeats 2000000 in
theorem claim_C7_witness :
    (get_app_id_and_secrets fetchA statusR).1 = none ∧
    (get_app_id_and_secrets_core fetchA statusR).1 = .error .noValidSecret := by
  have h := claim_C7 fetchA statusR (fun _ => rfl)
  exact ⟨h.1, h.2 "/resources/1.2.3-a123/bundle.js" "123456789"
    ["abcdefgh", "ijklmnop"] (by rfl) (by rfl) (by rfl)⟩

/-- C8: every candidate the run passes to the validator is a non-empty
string, and is the decoded secret of one of the run's region fragment
lists — regions that fail to decode, or decode to the empty string, never
reach the validator. -/
theorem claim_C8 (fetch : String → String) (status : String → Nat) (s : String)
    (h : s ∈ (get_app_id_and_secrets_core fetch status).2.validated) :
    s ≠ "" ∧ ∃ arr, arr ∈ region_fragment_lists fetch ∧
      decode_secret arr = .ok (some s) := by
  unfold get_app_id_and_secrets_core at h
  cases hb : bundle_url_search (fetch login_url) with
  | none => rw [hb] at h; simp at h
  | some path =>
    rw [hb] at h
    dsimp only at h
    unfold bundle_stage at h
    cases ha : app_id_search (fetch ("https://play.qobuz.com" ++ path)) with
    | none => rw [ha] at h; simp at h
    | some aid =>
      rw [ha] at h
      dsimp only at h
      unfold decode_stage at h
      cases hd : decoded_secrets
          ((extract_info_extras (fetch ("https://play.qobuz.com" ++ path))
            (extract_seeds (fetch ("https://play.qobuz.com" ++ path)))).map Prod.snd) with
      | error e => rw [hd] at h; simp at h
      | ok cs =>
        rw [hd] at h
        dsimp only at h
        rw [validate_stage_validated] at h
        have hsub : s ∈ cs := first_valid_sub status cs s h
        rcases decoded_secrets_mem _ cs hd s hsub with ⟨hne, arr, hmem, hdec⟩
        refine ⟨hne, arr, ?_, hdec⟩
        unfold region_fragment_lists
        rw [hb]
        exact hmem

set_option maxHeartbeats 2000000 in
theorem claim_C8_witness :
    "abcdefgh" ≠ "" ∧ ∃ arr, arr ∈ region_fragment_lists fetchA ∧
      decode_secret arr = .ok (some "abcdefgh") :=
  claim_C8 fetchA statusA "abcdefgh" (by decide)
